import Mathlib

/-!
Verification of the stream ingestion subsystem of `modules/utils.js`:
`makeChecksum`, `bufferStream`, `streamToDisk` and `makeTemporaryPath`.

The source is event-driven JavaScript: each operation attaches handlers for
the `data`, `end` and `error` events of a push-based byte source and settles
a `when.defer()` deferred.  We embed this shallowly:

* a byte chunk is a `List Nat` (one `Nat` per byte);
* the event stream delivered by a source is a `List` of events, folded in
  arrival order (events of one source are serialized, spec section 5);
* the deferred is an `Outcome` value with promise single-resolution
  semantics (spec section 9): `resolve`/`reject` are no-ops once settled;
* the handlers of each operation become a step function on an explicit
  state record, translated line by line from the source.
-/

namespace Mach

/-- A binary chunk: one natural number per byte. -/
abbrev Chunk := List Nat

/-- Total byte length of a list of chunks. -/
def sumLen (chunks : List Chunk) : Nat :=
  (chunks.map List.length).sum

@[simp]
theorem sumLen_nil : sumLen [] = 0 := rfl

@[simp]
theorem sumLen_cons (c : Chunk) (cs : List Chunk) :
    sumLen (c :: cs) = c.length + sumLen cs := by
  simp [sumLen]

theorem sumLen_append (a b : List Chunk) :
    sumLen (a ++ b) = sumLen a + sumLen b := by
  simp [sumLen]

/-- The failure conditions of the subsystem.  `errors.js` is not part of the
sources; per the spec's error taxonomy (section 7) `MaxLengthExceeded`
carries the configured limit and the source/destination errors wrap the
originating I/O condition, which we represent by a numeric code.
`destinationWriteError` is modelled from the spec only: the code under
`src/` never constructs it (see the theorems on `streamToDisk`). -/
inductive MachError where
  | maxLengthExceeded (limit : Nat)
  | sourceError (code : Nat)
  | unsupportedAlgorithm (name : String)
  | destinationWriteError (code : Nat)
deriving DecidableEq, Repr

/-- The state of a `when.defer()` deferred holding a value of type `α`:
pending, resolved, or rejected.  A deferred settles at most once. -/
inductive Outcome (α : Type) where
  | pending
  | resolved (value : α)
  | rejected (e : MachError)
deriving DecidableEq, Repr

namespace Outcome

/-- `value.resolve(a)`: settles a pending deferred, no-op afterwards. -/
def resolve : Outcome α → α → Outcome α
  | pending, a => resolved a
  | o, _ => o

/-- `value.reject(e)`: settles a pending deferred, no-op afterwards. -/
def reject : Outcome α → MachError → Outcome α
  | pending, e => rejected e
  | o, _ => o

@[simp]
theorem resolve_pending (a : α) : (pending : Outcome α).resolve a = resolved a := rfl

@[simp]
theorem reject_pending (e : MachError) : (pending : Outcome α).reject e = rejected e := rfl

theorem resolve_of_ne_pending {o : Outcome α} (h : o ≠ pending) (a : α) :
    o.resolve a = o := by
  cases o with
  | pending => exact absurd rfl h
  | resolved _ => rfl
  | rejected _ => rfl

theorem reject_of_ne_pending {o : Outcome α} (h : o ≠ pending) (e : MachError) :
    o.reject e = o := by
  cases o with
  | pending => exact absurd rfl h
  | resolved _ => rfl
  | rejected _ => rfl

theorem reject_ne_pending (o : Outcome α) (e : MachError) : o.reject e ≠ pending := by
  cases o <;> simp [reject]

theorem resolve_ne_pending (o : Outcome α) (a : α) : o.resolve a ≠ pending := by
  cases o <;> simp [resolve]

end Outcome

/-- An event delivered by a readable byte source: a `data` event carrying a
chunk, the `end` event, or an `error` event carrying the condition's code. -/
inductive StreamEvent where
  | data (chunk : Chunk)
  | ended
  | error (code : Nat)
deriving DecidableEq, Repr

/-! ## `bufferStream` (utils.js lines 235-259) -/

/-- The captured variables of one `bufferStream` invocation: the `chunks`
array, the running `length` counter, and the deferred.  The buffer resolved
on `end` is `Buffer.concat(chunks)`, i.e. the flattened chunk list. -/
structure BufferState where
  chunks : List Chunk
  length : Nat
  outcome : Outcome Chunk
deriving DecidableEq, Repr

/-- JavaScript truthiness of the `maxLength` argument (`none` = absent):
`maxLength && ...` short-circuits on `undefined` and on `0`. -/
def truthyMax : Option Nat → Bool
  | none => false
  | some v => v != 0

/-- One event handled by `bufferStream`'s listeners:

* `data`: `length += chunk.length`; if `maxLength && length > maxLength`
  reject `MaxLengthExceededError(maxLength)`, else `chunks.push(chunk)`;
* `end`: resolve `Buffer.concat(chunks)`;
* `error`: reject the source error. -/
def bufferStreamStep (maxLength : Option Nat) (s : BufferState) :
    StreamEvent → BufferState
  | .data chunk =>
    let length := s.length + chunk.length
    if truthyMax maxLength ∧ maxLength.getD 0 < length then
      { s with length := length,
               outcome := s.outcome.reject (.maxLengthExceeded (maxLength.getD 0)) }
    else
      { s with length := length, chunks := s.chunks ++ [chunk] }
  | .ended => { s with outcome := s.outcome.resolve s.chunks.flatten }
  | .error code => { s with outcome := s.outcome.reject (.sourceError code) }

/-- The state reached by one `bufferStream` invocation after its source
delivered `events` in order. -/
def bufferStream (maxLength : Option Nat) (events : List StreamEvent) :
    BufferState :=
  events.foldl (bufferStreamStep maxLength) ⟨[], 0, .pending⟩

/-- Once the deferred is settled, no later event changes the outcome:
the handlers keep running but `resolve`/`reject` are no-ops. -/
theorem bufferStream_outcome_stable (maxLength : Option Nat) :
    ∀ (events : List StreamEvent) (s : BufferState), s.outcome ≠ .pending →
      (events.foldl (bufferStreamStep maxLength) s).outcome = s.outcome := by
  intro events
  induction events with
  | nil => intro s _; rfl
  | cons e rest ih =>
    intro s hs
    have hstep : (bufferStreamStep maxLength s e).outcome = s.outcome := by
      cases e with
      | data chunk =>
        by_cases hb : truthyMax maxLength ∧
            maxLength.getD 0 < s.length + chunk.length
        · simp [bufferStreamStep, hb, Outcome.reject_of_ne_pending hs]
        · simp [bufferStreamStep, hb]
      | ended => simp [bufferStreamStep, Outcome.resolve_of_ne_pending hs]
      | error code => simp [bufferStreamStep, Outcome.reject_of_ne_pending hs]
    rw [List.foldl_cons]
    rw [ih _ (by rw [hstep]; exact hs), hstep]

/-- Folding data chunks whose total stays within the limit appends them all
and leaves the outcome untouched. -/
theorem bufferStream_fold_data_ok (maxLength : Option Nat) :
    ∀ (chunks : List Chunk) (s : BufferState),
      (truthyMax maxLength = false ∨ s.length + sumLen chunks ≤ maxLength.getD 0) →
      (chunks.map StreamEvent.data).foldl (bufferStreamStep maxLength) s =
        ⟨s.chunks ++ chunks, s.length + sumLen chunks, s.outcome⟩ := by
  intro chunks
  induction chunks with
  | nil => intro s _; simp
  | cons c rest ih =>
    intro s h
    have hc : ¬ (truthyMax maxLength ∧ maxLength.getD 0 < s.length + c.length) := by
      rcases h with h | h
      · rintro ⟨h1, _⟩; rw [h] at h1; exact Bool.false_ne_true h1
      · rintro ⟨_, h2⟩
        have : s.length + c.length ≤ maxLength.getD 0 := by
          calc s.length + c.length ≤ s.length + (c.length + sumLen rest) := by omega
            _ ≤ maxLength.getD 0 := by simpa using h
        omega
    have hrest : (truthyMax maxLength = false ∨
        (s.length + c.length) + sumLen rest ≤ maxLength.getD 0) := by
      rcases h with h | h
      · exact Or.inl h
      · exact Or.inr (by simpa [Nat.add_assoc] using h)
    rw [List.map_cons, List.foldl_cons]
    have hstep : bufferStreamStep maxLength s (.data c) =
        ⟨s.chunks ++ [c], s.length + c.length, s.outcome⟩ := by
      simp [bufferStreamStep, hc]
    rw [hstep, ih _ hrest]
    simp [Nat.add_assoc]

/-- After a breach, data chunks only accumulate the length counter: the
`chunks` array is never extended again (the running total can only grow, so
every later chunk takes the rejection branch). -/
theorem bufferStream_fold_data_breached (v : Nat) (hv : v ≠ 0) :
    ∀ (chunks : List Chunk) (s : BufferState), v < s.length →
      ((chunks.map StreamEvent.data).foldl (bufferStreamStep (some v)) s).chunks
          = s.chunks ∧
      ((chunks.map StreamEvent.data).foldl (bufferStreamStep (some v)) s).length
          = s.length + sumLen chunks := by
  intro chunks
  induction chunks with
  | nil => intro s _; simp
  | cons c rest ih =>
    intro s h
    have hb : truthyMax (some v) ∧ (some v).getD 0 < s.length + c.length := by
      refine ⟨?_, ?_⟩
      · simp [truthyMax, hv]
      · simp only [Option.getD_some]; omega
    rw [List.map_cons, List.foldl_cons]
    have hb2 : v < s.length + c.length := by
      have hx := hb.2; simpa using hx
    have hstep : bufferStreamStep (some v) s (.data c) =
        ⟨s.chunks, s.length + c.length, s.outcome.reject (.maxLengthExceeded v)⟩ := by
      simp [bufferStreamStep, hb.1, hb2]
    rw [hstep]
    have h1 := ih ⟨s.chunks, s.length + c.length,
      s.outcome.reject (.maxLengthExceeded v)⟩ (by simp; omega)
    refine ⟨h1.1, ?_⟩
    rw [h1.2]; simp [Nat.add_assoc]

/-- If the deferred is still pending and the incoming chunks push the total
past a nonzero limit, folding them rejects with `MaxLengthExceeded v`. -/
theorem bufferStream_fold_data_breach_outcome (v : Nat) (hv : v ≠ 0) :
    ∀ (chunks : List Chunk) (s : BufferState), s.outcome = .pending →
      s.length ≤ v → v < s.length + sumLen chunks →
      ((chunks.map StreamEvent.data).foldl (bufferStreamStep (some v)) s).outcome
        = .rejected (.maxLengthExceeded v) := by
  intro chunks
  induction chunks with
  | nil => intro s _ h1 h2; simp at h2; omega
  | cons c rest ih =>
    intro s hp h1 h2
    rw [List.map_cons, List.foldl_cons]
    by_cases hb : v < s.length + c.length
    · have hcond : truthyMax (some v) ∧ (some v).getD 0 < s.length + c.length := by
        refine ⟨?_, ?_⟩
        · simp [truthyMax, hv]
        · simp only [Option.getD_some]; omega
      have hstep : bufferStreamStep (some v) s (.data c) =
          ⟨s.chunks, s.length + c.length,
            s.outcome.reject (.maxLengthExceeded v)⟩ := by
        simp [bufferStreamStep, hcond.1, hb]
      rw [hstep]
      have hne : (⟨s.chunks, s.length + c.length,
          s.outcome.reject (.maxLengthExceeded v)⟩ : BufferState).outcome ≠
            .pending := Outcome.reject_ne_pending _ _
      rw [bufferStream_outcome_stable (some v) _ _ hne]
      simp [hp]
    · have hcond : ¬ (truthyMax (some v) ∧
          (some v).getD 0 < s.length + c.length) := by
        rintro ⟨_, hlt⟩; simp at hlt; omega
      have hstep : bufferStreamStep (some v) s (.data c) =
          ⟨s.chunks ++ [c], s.length + c.length, s.outcome⟩ := by
        simp [bufferStreamStep, hcond]
        intro _
        omega
      rw [hstep]
      refine ih ⟨s.chunks ++ [c], s.length + c.length, s.outcome⟩
        (by simpa using hp) (by simp; omega) ?_
      simp at h2 ⊢; omega

/-- C1: with a configured maximum `m > 0`, if the chunks delivered before the
source ends exceed `m` in total, `bufferStream` rejects with
`MaxLengthExceeded` carrying the configured limit `m` (not the observed
length) and never yields a buffer; if the source ends with total length at
most `m`, it resolves with the concatenated buffer. -/
theorem bufferStream_limit_enforced (m : Nat) (chunks : List Chunk)
    (hm : 0 < m) :
    (m < sumLen chunks →
      (bufferStream (some m) (chunks.map .data ++ [.ended])).outcome
          = .rejected (.maxLengthExceeded m) ∧
      ∀ b, (bufferStream (some m) (chunks.map .data ++ [.ended])).outcome
          ≠ .resolved b) ∧
    (sumLen chunks ≤ m →
      (bufferStream (some m) (chunks.map .data ++ [.ended])).outcome
          = .resolved chunks.flatten) := by
  constructor
  · intro h
    have hout : ((chunks.map StreamEvent.data).foldl (bufferStreamStep (some m))
        ⟨[], 0, .pending⟩).outcome = .rejected (.maxLengthExceeded m) :=
      bufferStream_fold_data_breach_outcome m (by omega) chunks ⟨[], 0, .pending⟩
        rfl (by simp) (by simpa using h)
    have hfull : (bufferStream (some m)
        (chunks.map .data ++ [.ended])).outcome
          = .rejected (.maxLengthExceeded m) := by
      unfold bufferStream
      rw [List.foldl_append]
      rw [bufferStream_outcome_stable (some m) [StreamEvent.ended] _
        (by rw [hout]; simp)]
      exact hout
    refine ⟨hfull, ?_⟩
    intro b
    rw [hfull]
    simp
  · intro h
    unfold bufferStream
    rw [List.foldl_append]
    rw [bufferStream_fold_data_ok (some m) chunks ⟨[], 0, .pending⟩
      (Or.inr (by simpa using h))]
    simp [bufferStreamStep]

/-- Witness for C1 at the spec's own example: chunks of 10+10 bytes against
maximum 15 reject with the limit 15 (not the observed 20); a single 10-byte
chunk against maximum 15 resolves with exactly those bytes. -/
theorem bufferStream_limit_enforced_witness :
    (bufferStream (some 15)
      ([List.replicate 10 97, List.replicate 10 98].map StreamEvent.data
        ++ [StreamEvent.ended])).outcome
      = Outcome.rejected (MachError.maxLengthExceeded 15) ∧
    (bufferStream (some 15) ([List.replicate 10 97].map StreamEvent.data
        ++ [StreamEvent.ended])).outcome
      = Outcome.resolved (List.replicate 10 97) := by
  refine ⟨((bufferStream_limit_enforced 15
    [List.replicate 10 97, List.replicate 10 98] (by decide)).1 (by decide)).1, ?_⟩
  have h := (bufferStream_limit_enforced 15 [List.replicate 10 97]
    (by decide)).2 (by decide)
  simpa using h

/-- C5: with maximum `0` or absent (`none`), `bufferStream` is unbounded and
on normal completion resolves with the byte-exact concatenation of all chunks
in arrival order; an empty source yields an empty buffer. -/
theorem bufferStream_unbounded (chunks : List Chunk) :
    (bufferStream none (chunks.map .data ++ [.ended])).outcome
        = .resolved chunks.flatten ∧
    (bufferStream (some 0) (chunks.map .data ++ [.ended])).outcome
        = .resolved chunks.flatten ∧
    chunks.flatten.length = sumLen chunks ∧
    (bufferStream none [.ended]).outcome = .resolved [] := by
  refine ⟨?_, ?_, ?_, rfl⟩
  · unfold bufferStream
    rw [List.foldl_append]
    rw [bufferStream_fold_data_ok none chunks ⟨[], 0, .pending⟩ (Or.inl rfl)]
    simp [bufferStreamStep]
  · unfold bufferStream
    rw [List.foldl_append]
    rw [bufferStream_fold_data_ok (some 0) chunks ⟨[], 0, .pending⟩ (Or.inl rfl)]
    simp [bufferStreamStep]
  · simp [sumLen]

/-- C9: once a chunk pushes the running total past a nonzero maximum, neither
it nor any later chunk is appended to the chunk list; the length counter
keeps accumulating across all later data events, and the buffered data stays
exactly the prefix of chunks observed strictly before the breach. -/
theorem bufferStream_breach_prefix (m : Nat) (pre : List Chunk) (c : Chunk)
    (post : List Chunk) (hm : 0 < m) (hpre : sumLen pre ≤ m)
    (hc : m < sumLen pre + c.length) :
    (bufferStream (some m) ((pre ++ c :: post).map .data)).chunks = pre ∧
    (bufferStream (some m) ((pre ++ c :: post).map .data)).length
        = sumLen pre + c.length + sumLen post ∧
    (bufferStream (some m) ((pre ++ c :: post).map .data)).outcome
        = .rejected (.maxLengthExceeded m) := by
  unfold bufferStream
  rw [show (pre ++ c :: post).map StreamEvent.data
      = pre.map StreamEvent.data
        ++ (StreamEvent.data c :: post.map StreamEvent.data) by simp]
  rw [List.foldl_append]
  rw [bufferStream_fold_data_ok (some m) pre ⟨[], 0, .pending⟩
    (Or.inr (by simpa using hpre))]
  simp only [List.nil_append, Nat.zero_add, List.foldl_cons]
  have hstep : bufferStreamStep (some m) ⟨pre, sumLen pre, .pending⟩ (.data c)
      = ⟨pre, sumLen pre + c.length, .rejected (.maxLengthExceeded m)⟩ := by
    have ht : truthyMax (some m) = true := by
      simp [truthyMax]; omega
    have hlt : (some m).getD 0 < sumLen pre + c.length := by
      simp; omega
    simp [bufferStreamStep, ht, hlt]
    omega
  rw [hstep]
  have hb := bufferStream_fold_data_breached m (by omega) post
    ⟨pre, sumLen pre + c.length, .rejected (.maxLengthExceeded m)⟩
    (by simp; omega)
  refine ⟨hb.1, ?_, ?_⟩
  · exact hb.2
  · rw [bufferStream_outcome_stable (some m) (post.map StreamEvent.data) _
      (by simp)]

/-- Witness for C9: maximum 2, a 2-byte chunk within the limit, a breaching
chunk, and one more chunk after the breach. -/
theorem bufferStream_breach_prefix_witness :
    (bufferStream (some 2)
        (([[9, 9]] ++ [7] :: [[1]]).map StreamEvent.data)).chunks = [[9, 9]] ∧
    (bufferStream (some 2)
        (([[9, 9]] ++ [7] :: [[1]]).map StreamEvent.data)).length
      = sumLen [[9, 9]] + ([7] : Chunk).length + sumLen [[1]] ∧
    (bufferStream (some 2)
        (([[9, 9]] ++ [7] :: [[1]]).map StreamEvent.data)).outcome
      = Outcome.rejected (MachError.maxLengthExceeded 2) :=
  bufferStream_breach_prefix 2 [[9, 9]] [7] [[1]] (by decide) (by decide)
    (by decide)

/-! ## `makeChecksum` (utils.js lines 209-229) -/

/-- JavaScript `a || b` for an optional string argument: the default is used
when the argument is absent or the empty string (both falsy). -/
def jsOrString (a : Option String) (b : String) : String :=
  match a with
  | none => b
  | some s => if s = "" then b else s

/-- The fixed allow-list of digest algorithms accepted by
`crypto.createHash`.  The crypto module is an external collaborator whose
digest set is fixed for a given build (spec section 4.1); membership beyond
the names listed here is immaterial to the theorems. -/
def supportedAlgorithms : List String :=
  ["md5", "sha1", "sha224", "sha256", "sha384", "sha512", "rmd160"]

/-- The captured variables of one `makeChecksum` invocation: the bytes folded
into the hash object so far and the deferred.  No claim concerns the value of
a digest, so the hash state is represented by the byte sequence fed to it:
the digest resolved on `end` is a function of exactly these bytes. -/
structure ChecksumState where
  hashed : Chunk
  outcome : Outcome Chunk
deriving DecidableEq, Repr

/-- One event handled by `makeChecksum`'s listeners: `data` runs
`hash.update(chunk)`, `end` resolves `hash.digest('hex')`, `error` rejects
with the source's error. -/
def checksumStep (s : ChecksumState) : StreamEvent → ChecksumState
  | .data chunk => ⟨s.hashed ++ chunk, s.outcome⟩
  | .ended => ⟨s.hashed, s.outcome.resolve s.hashed⟩
  | .error code => ⟨s.hashed, s.outcome.reject (.sourceError code)⟩

/-- The result of one `makeChecksum` invocation.  In the source,
`crypto.createHash(algorithm)` (line 213) is evaluated before
`fs.createReadStream(file)` (line 214), so an unsupported algorithm throws
synchronously (`thrown`): the file is never opened and no event is ever
processed.  Otherwise the stream is opened and its events fold (`ran`). -/
inductive ChecksumResult where
  | thrown (e : MachError)
  | ran (s : ChecksumState)
deriving DecidableEq, Repr

/-- `makeChecksum(file, algorithm)`: `algorithm = algorithm || 'md5'`, then
`createHash`, then the read stream's events. -/
def makeChecksum (algorithm : Option String) (events : List StreamEvent) :
    ChecksumResult :=
  let alg := jsOrString algorithm "md5"
  if alg ∈ supportedAlgorithms then
    .ran (events.foldl checksumStep ⟨[], .pending⟩)
  else
    .thrown (.unsupportedAlgorithm alg)

/-- Once the checksum deferred is settled, later events leave it unchanged. -/
theorem checksum_outcome_stable :
    ∀ (events : List StreamEvent) (s : ChecksumState), s.outcome ≠ .pending →
      (events.foldl checksumStep s).outcome = s.outcome := by
  intro events
  induction events with
  | nil => intro s _; rfl
  | cons e rest ih =>
    intro s hs
    have hstep : (checksumStep s e).outcome = s.outcome := by
      cases e with
      | data chunk => rfl
      | ended => simp [checksumStep, Outcome.resolve_of_ne_pending hs]
      | error code => simp [checksumStep, Outcome.reject_of_ne_pending hs]
    rw [List.foldl_cons, ih _ (by rw [hstep]; exact hs), hstep]

/-- C7: an algorithm name outside the allow-list makes `makeChecksum` fail
fast, before any I/O: the invocation is the synchronous
`UnsupportedAlgorithm` throw, the file is never opened, no byte is read and
no digest is produced (no `ran` state exists). -/
theorem makeChecksum_unsupported_fails_fast (algorithm : Option String)
    (events : List StreamEvent)
    (h : jsOrString algorithm "md5" ∉ supportedAlgorithms) :
    makeChecksum algorithm events
        = .thrown (.unsupportedAlgorithm (jsOrString algorithm "md5")) ∧
    ∀ s, makeChecksum algorithm events ≠ .ran s := by
  have heq : makeChecksum algorithm events
      = .thrown (.unsupportedAlgorithm (jsOrString algorithm "md5")) := by
    unfold makeChecksum
    simp [h]
  refine ⟨heq, ?_⟩
  intro s
  rw [heq]
  simp

/-- Witness for C7: the algorithm name `nope` fails fast even though the
source would deliver data. -/
theorem makeChecksum_unsupported_fails_fast_witness :
    makeChecksum (some "nope") [StreamEvent.data [1], StreamEvent.ended]
        = ChecksumResult.thrown (MachError.unsupportedAlgorithm "nope") ∧
    ∀ s, makeChecksum (some "nope") [StreamEvent.data [1], StreamEvent.ended]
        ≠ ChecksumResult.ran s :=
  makeChecksum_unsupported_fails_fast (some "nope")
    [StreamEvent.data [1], StreamEvent.ended] (by decide)

/-! ## `makeTemporaryPath` (utils.js lines 295-304) -/

/-- The process-wide inputs read by one `makeTemporaryPath` call:
`os.tmpDir()`, `process.pid`, the current date as `Date#getYear()` (years
since 1900), `Date#getMonth()` (0-based) and `Date#getDate()`, and the
`Math.random()` draw.  The draw is modelled at 32-bit granularity: for
`Math.random() = r / 2^32` with `r < 2^32`, the source expression
`Math.random() * 0x100000000 + 1` equals `r + 1`, which retains all 32 bits
of the draw. -/
structure PathEnv where
  tmpDir : String
  pid : Nat
  yearSince1900 : Nat
  monthIndex : Nat
  dayOfMonth : Nat
  random : Fin (2 ^ 32)
deriving DecidableEq, Repr

/-- The character of one base-36 digit as rendered by JavaScript
`Number#toString(36)`: `0`-`9` then `a`-`z`. -/
def base36Digit (d : Nat) : Char :=
  if d < 10 then Char.ofNat (48 + d) else Char.ofNat (87 + d)

/-- JavaScript `n.toString(36)` for a natural number: the base-36 digits,
most significant first. -/
def toBase36 (n : Nat) : String :=
  if n = 0 then "0" else String.mk ((Nat.digits 36 n).reverse.map base36Digit)

/-- `'' + now.getYear() + now.getMonth() + now.getDate()`: the concatenated
decimal renderings — a coarse, locale-independent year/month/day
component. -/
def dateComponent (env : PathEnv) : String :=
  toString env.yearSince1900 ++ toString env.monthIndex
    ++ toString env.dayOfMonth

/-- `(Math.random() * 0x100000000 + 1).toString(36)` at 32-bit
granularity. -/
def randomComponent (env : PathEnv) : String :=
  toBase36 (env.random.val + 1)

/-- `makeTemporaryPath(prefix)`: `prefix = prefix || ''`; the name is
`[ prefix, date, '-', process.pid, '-', random ].join('')` and the result is
`path.join(os.tmpDir(), name)`, modelled as interposing `/`. -/
def makeTemporaryPath (env : PathEnv) ( filePrefix : Option String) :
    String :=
  let name := String.join [jsOrString filePrefix "", dateComponent env, "-",
    toString env.pid, "-", randomComponent env]
  env.tmpDir ++ "/" ++ name

/-- Distinct base-36 digits below 36 render as distinct characters. -/
theorem base36Digit_inj_below :
    ∀ a < 36, ∀ b < 36, base36Digit a = base36Digit b → a = b := by
  decide

/-- Mapping `base36Digit` over digit lists (all entries below 36) is
injective. -/
theorem map_base36Digit_inj :
    ∀ (l1 l2 : List Nat), (∀ d ∈ l1, d < 36) → (∀ d ∈ l2, d < 36) →
      l1.map base36Digit = l2.map base36Digit → l1 = l2 := by
  intro l1
  induction l1 with
  | nil =>
    intro l2 _ _ h
    cases l2 with
    | nil => rfl
    | cons b bs => simp at h
  | cons a as ih =>
    intro l2 h1 h2 h
    cases l2 with
    | nil => simp at h
    | cons b bs =>
      simp only [List.map_cons, List.cons.injEq] at h
      have hab : a = b :=
        base36Digit_inj_below a (h1 a (List.mem_cons_self a as)) b
          (h2 b (List.mem_cons_self b bs)) h.1
      have htl : as = bs :=
        ih bs (fun d hd => h1 d (List.mem_cons_of_mem a hd))
          (fun d hd => h2 d (List.mem_cons_of_mem b hd)) h.2
      rw [hab, htl]

/-- `toBase36` is injective on positive numbers. -/
theorem toBase36_inj_pos (m n : Nat) (hm : m ≠ 0) (hn : n ≠ 0)
    (h : toBase36 m = toBase36 n) : m = n := by
  unfold toBase36 at h
  rw [if_neg hm, if_neg hn] at h
  injection h with hdata
  have hrev : (Nat.digits 36 m).reverse = (Nat.digits 36 n).reverse :=
    map_base36Digit_inj _ _
      (fun d hd => Nat.digits_lt_base (by norm_num)
        (List.mem_reverse.mp hd))
      (fun d hd => Nat.digits_lt_base (by norm_num)
        (List.mem_reverse.mp hd)) hdata
  have hdig : Nat.digits 36 m = Nat.digits 36 n := by
    have := congrArg List.reverse hrev
    simpa using this
  calc m = Nat.ofDigits 36 (Nat.digits 36 m) := (Nat.ofDigits_digits 36 m).symm
    _ = Nat.ofDigits 36 (Nat.digits 36 n) := by rw [hdig]
    _ = n := Nat.ofDigits_digits 36 n

/-- C8: the generated path lies inside the temporary directory and its final
name concatenates the prefix (empty when absent), the date component, a
separator, the process id, a separator and the random component; the random
component is the compact base-36 rendering of a draw from a domain of
exactly `2^32` elements (at least 32 bits of entropy), and distinct draws
render distinctly. -/
theorem makeTemporaryPath_structure (env : PathEnv) (p : Option String) :
    makeTemporaryPath env p
        = env.tmpDir ++ "/" ++ (jsOrString p "" ++ dateComponent env ++ "-"
            ++ toString env.pid ++ "-" ++ randomComponent env) ∧
    Function.Injective (fun r : Fin (2 ^ 32) => toBase36 (r.val + 1)) ∧
    Fintype.card (Fin (2 ^ 32)) = 2 ^ 32 := by
  refine ⟨?_, ?_, Fintype.card_fin _⟩
  · unfold makeTemporaryPath
    simp [String.join, String.append_assoc]
  · intro a b hab
    have h := toBase36_inj_pos (a.val + 1) (b.val + 1) (by omega) (by omega)
      hab
    exact Fin.ext (by omega)

/-! ## `streamToDisk` (utils.js lines 261-291) -/

/-- A named part: a byte source additionally exposing declared `filename`
and `type` fields (both optional), read once and passed through. -/
structure Part where
  filename : Option String
  type : Option String
deriving DecidableEq, Repr

/-- The `info` record built by `streamToDisk` and resolved on completion. -/
structure StoredPartInfo where
  path : String
  name : Option String
  type : Option String
  size : Nat
deriving DecidableEq, Repr

/-- An event observed by one `streamToDisk` invocation: the part's `data`,
`end` and `error` events, plus the two callbacks delivered by the
destination write stream — `ackWrite ok` for the completion callback of one
`stream.write(chunk, cb)` (`ok = false` when that write failed), and
`flushed` for the callback of `stream.end(cb)`, which fires once every
buffered write has been flushed and the file closed. -/
inductive PartEvent where
  | data (chunk : Chunk)
  | ackWrite (ok : Bool)
  | ended
  | flushed
  | error (code : Nat)
deriving DecidableEq, Repr

/-- The state of one `streamToDisk` invocation: the mutable `info` record;
the chunks handed to `stream.write` in order (`written` — the file content
on close is their concatenation, the writable stream preserving write
order); the count of storage-layer acknowledgments received (bookkeeping:
the code's write callback body is empty); whether `stream.end` was called;
whether the flush/close callback has fired; and the deferred. -/
structure DiskState where
  info : StoredPartInfo
  written : List Chunk
  acked : Nat
  endCalled : Bool
  closed : Bool
  outcome : Outcome StoredPartInfo
deriving DecidableEq, Repr

/-- One event handled by `streamToDisk`:

* `data`: `info.size += chunk.length; stream.write(chunk, cb)` — the write
  is issued immediately; nothing waits for an acknowledgment;
* `ackWrite`: one write callback runs; its body is empty (`// TODO: Emit
  progress.`), so nothing changes beyond the acknowledgment count — in
  particular a failed write is ignored and nothing rejects;
* `end`: `stream.end(cb)` is called;
* `flushed`: the `stream.end` callback: the file is flushed and closed, then
  `value.resolve(info)`;
* `error`: `value.reject(error)` with the source's error. -/
def diskStep (s : DiskState) : PartEvent → DiskState
  | .data chunk =>
    { s with
        info := { s.info with size := s.info.size + chunk.length },
        written := s.written ++ [chunk] }
  | .ackWrite _ => { s with acked := s.acked + 1 }
  | .ended => { s with endCalled := true }
  | .flushed => { s with closed := true, outcome := s.outcome.resolve s.info }
  | .error code => { s with outcome := s.outcome.reject (.sourceError code) }

/-- The state reached by one `streamToDisk` invocation after `events`: the
temporary path is allocated and the `info` record initialized up front, then
the events fold. -/
def streamToDisk (part : Part) ( filePrefix : Option String) (env : PathEnv)
    (events : List PartEvent) : DiskState :=
  events.foldl diskStep
    ⟨⟨makeTemporaryPath env filePrefix, part.filename, part.type, 0⟩,
      [], 0, false, false, .pending⟩

/-- The chunks carried by the `data` events of a trace, in order. -/
def dataChunks (events : List PartEvent) : List Chunk :=
  events.filterMap fun e =>
    match e with
    | .data c => some c
    | _ => none

/-- Validity bookkeeping for a `streamToDisk` event trace. -/
structure TraceCheck where
  dataCount : Nat
  ackCount : Nat
  sawEnd : Bool
  sawError : Bool
  sawFlush : Bool
  ok : Bool
deriving DecidableEq, Repr

/-- One step of trace validation: no `data` or terminal after a terminal
(`end`/`error`), acknowledgments never outnumber issued writes, and
`flushed` at most once, only after `end`. -/
def traceCheckStep (t : TraceCheck) : PartEvent → TraceCheck
  | .data _ =>
    { t with dataCount := t.dataCount + 1,
             ok := t.ok && !t.sawEnd && !t.sawError }
  | .ackWrite _ =>
    { t with ackCount := t.ackCount + 1,
             ok := t.ok && decide (t.ackCount + 1 ≤ t.dataCount) }
  | .ended =>
    { t with sawEnd := true, ok := t.ok && !t.sawEnd && !t.sawError }
  | .flushed =>
    { t with sawFlush := true, ok := t.ok && t.sawEnd && !t.sawFlush }
  | .error _ =>
    { t with sawError := true, ok := t.ok && !t.sawEnd && !t.sawError }

/-- A trace a real source/stream pair can deliver to one invocation. -/
def validTrace (events : List PartEvent) : Bool :=
  (events.foldl traceCheckStep ⟨0, 0, false, false, false, true⟩).ok

/-- Once the disk deferred is settled, later events leave it unchanged. -/
theorem disk_outcome_stable :
    ∀ (events : List PartEvent) (s : DiskState), s.outcome ≠ .pending →
      (events.foldl diskStep s).outcome = s.outcome := by
  intro events
  induction events with
  | nil => intro s _; rfl
  | cons e rest ih =>
    intro s hs
    have hstep : (diskStep s e).outcome = s.outcome := by
      cases e with
      | data chunk => rfl
      | ackWrite ok => rfl
      | ended => rfl
      | flushed => simp [diskStep, Outcome.resolve_of_ne_pending hs]
      | error code => simp [diskStep, Outcome.reject_of_ne_pending hs]
    rw [List.foldl_cons, ih _ (by rw [hstep]; exact hs), hstep]

/-- Over any trace, the fold writes exactly the data chunks in order,
accumulates their lengths into `info.size`, and never touches `info.path`,
`info.name` or `info.type`. -/
theorem disk_fold_written :
    ∀ (events : List PartEvent) (s : DiskState),
      ((events.foldl diskStep s).written = s.written ++ dataChunks events) ∧
      ((events.foldl diskStep s).info.size
          = s.info.size + sumLen (dataChunks events)) ∧
      ((events.foldl diskStep s).info.path = s.info.path) ∧
      ((events.foldl diskStep s).info.name = s.info.name) ∧
      ((events.foldl diskStep s).info.type = s.info.type) := by
  intro events
  induction events with
  | nil => intro s; simp [dataChunks]
  | cons e rest ih =>
    intro s
    rw [List.foldl_cons]
    have h := ih (diskStep s e)
    cases e with
    | data chunk =>
      refine ⟨?_, ?_, ?_, ?_, ?_⟩
      · rw [h.1]; simp [diskStep, dataChunks]
      · rw [h.2.1]; simp [diskStep, dataChunks]; omega
      · rw [h.2.2.1]; rfl
      · rw [h.2.2.2.1]; rfl
      · rw [h.2.2.2.2]; rfl
    | ackWrite ok =>
      refine ⟨?_, ?_, ?_, ?_, ?_⟩
      · rw [h.1]; simp [diskStep, dataChunks]
      · rw [h.2.1]; simp [diskStep, dataChunks]
      · rw [h.2.2.1]; rfl
      · rw [h.2.2.2.1]; rfl
      · rw [h.2.2.2.2]; rfl
    | ended =>
      refine ⟨?_, ?_, ?_, ?_, ?_⟩
      · rw [h.1]; simp [diskStep, dataChunks]
      · rw [h.2.1]; simp [diskStep, dataChunks]
      · rw [h.2.2.1]; rfl
      · rw [h.2.2.2.1]; rfl
      · rw [h.2.2.2.2]; rfl
    | flushed =>
      refine ⟨?_, ?_, ?_, ?_, ?_⟩
      · rw [h.1]; simp [diskStep, dataChunks]
      · rw [h.2.1]; simp [diskStep, dataChunks]
      · rw [h.2.2.1]; rfl
      · rw [h.2.2.2.1]; rfl
      · rw [h.2.2.2.2]; rfl
    | error code =>
      refine ⟨?_, ?_, ?_, ?_, ?_⟩
      · rw [h.1]; simp [diskStep, dataChunks]
      · rw [h.2.1]; simp [diskStep, dataChunks]
      · rw [h.2.2.1]; rfl
      · rw [h.2.2.2.1]; rfl
      · rw [h.2.2.2.2]; rfl

theorem Outcome.eq_rejected_of_resolve {α : Type} {o : Outcome α} {a : α}
    {e : MachError} (h : o.resolve a = .rejected e) : o = .rejected e := by
  cases o with
  | pending => simp [Outcome.resolve] at h
  | resolved v => simp [Outcome.resolve] at h
  | rejected x => simpa [Outcome.resolve] using h

theorem Outcome.eq_of_reject_eq_rejected {α : Type} {o : Outcome α}
    {x e : MachError} (h : o.reject x = .rejected e) :
    o = .rejected e ∨ (o = .pending ∧ e = x) := by
  cases o with
  | pending =>
    simp [Outcome.reject] at h
    exact Or.inr ⟨rfl, h.symm⟩
  | resolved v => simp [Outcome.reject] at h
  | rejected y => exact Or.inl (by simpa [Outcome.reject] using h)

theorem Outcome.eq_resolved_of_reject {α : Type} {o : Outcome α}
    {x : MachError} {a : α} (h : o.reject x = .resolved a) :
    o = .resolved a := by
  cases o with
  | pending => simp [Outcome.reject] at h
  | resolved v => simpa [Outcome.reject] using h
  | rejected y => simp [Outcome.reject] at h

/-- Any rejection produced by the fold either predates it or is the wrapped
error of a source `error` event in the trace. -/
theorem disk_fold_rejected :
    ∀ (events : List PartEvent) (s : DiskState) (e : MachError),
      (events.foldl diskStep s).outcome = .rejected e →
      s.outcome = .rejected e ∨
        ∃ c, e = .sourceError c ∧ PartEvent.error c ∈ events := by
  intro events
  induction events with
  | nil => intro s e h; exact Or.inl h
  | cons ev rest ih =>
    intro s e h
    rw [List.foldl_cons] at h
    rcases ih (diskStep s ev) e h with h1 | ⟨c, hc, hmem⟩
    · cases ev with
      | data chunk => exact Or.inl h1
      | ackWrite ok => exact Or.inl h1
      | ended => exact Or.inl h1
      | flushed =>
        exact Or.inl (Outcome.eq_rejected_of_resolve
          (by simpa [diskStep] using h1))
      | error code =>
        rcases Outcome.eq_of_reject_eq_rejected
            (by simpa [diskStep] using h1) with h2 | ⟨_, h3⟩
        · exact Or.inl h2
        · exact Or.inr ⟨code, h3, List.mem_cons_self _ _⟩
    · exact Or.inr ⟨c, hc, List.mem_cons_of_mem ev hmem⟩

/-- The fold only ever resolves with the file already flushed and closed:
resolution happens inside the `stream.end` callback. -/
theorem disk_fold_resolved_closed :
    ∀ (events : List PartEvent) (s : DiskState),
      (∀ i, s.outcome = .resolved i → s.closed = true) →
      ∀ i, (events.foldl diskStep s).outcome = .resolved i →
        (events.foldl diskStep s).closed = true := by
  intro events
  induction events with
  | nil => intro s hs i h; exact hs i h
  | cons ev rest ih =>
    intro s hs i h
    rw [List.foldl_cons] at h ⊢
    refine ih (diskStep s ev) ?_ i h
    intro j hj
    cases ev with
    | data chunk => exact hs j hj
    | ackWrite ok => exact hs j hj
    | ended => exact hs j hj
    | flushed => rfl
    | error code =>
      exact hs j (Outcome.eq_resolved_of_reject (by simpa [diskStep] using hj))

/-- Folding a burst of data events: every chunk is appended to `written`
immediately and the size accumulates; nothing else changes — in particular
no acknowledgment is consumed before the next chunk is accepted. -/
theorem disk_fold_data :
    ∀ (chunks : List Chunk) (s : DiskState),
      (chunks.map PartEvent.data).foldl diskStep s =
        ⟨⟨s.info.path, s.info.name, s.info.type, s.info.size + sumLen chunks⟩,
          s.written ++ chunks, s.acked, s.endCalled, s.closed, s.outcome⟩ := by
  intro chunks
  induction chunks with
  | nil => intro s; simp
  | cons c rest ih =>
    intro s
    rw [List.map_cons, List.foldl_cons, show diskStep s (.data c) =
      ⟨⟨s.info.path, s.info.name, s.info.type, s.info.size + c.length⟩,
        s.written ++ [c], s.acked, s.endCalled, s.closed, s.outcome⟩ from rfl]
    rw [ih]
    simp [Nat.add_assoc]

/-- Folding write acknowledgments: only the acknowledgment count changes,
whether each write succeeded or failed. -/
theorem disk_fold_acks :
    ∀ (oks : List Bool) (s : DiskState),
      (oks.map PartEvent.ackWrite).foldl diskStep s =
        ⟨s.info, s.written, s.acked + oks.length, s.endCalled, s.closed,
          s.outcome⟩ := by
  intro oks
  induction oks with
  | nil => intro s; simp
  | cons ok rest ih =>
    intro s
    rw [List.map_cons, List.foldl_cons, show diskStep s (.ackWrite ok) =
      ⟨s.info, s.written, s.acked + 1, s.endCalled, s.closed, s.outcome⟩
      from rfl]
    rw [ih]
    simp
    omega

/-- A burst of data events with no terminal seen yet keeps a trace valid. -/
theorem traceCheck_fold_data :
    ∀ (chunks : List Chunk) (d a : Nat) (f : Bool),
      ((chunks.map PartEvent.data).foldl traceCheckStep
        ⟨d, a, false, false, f, true⟩).ok = true := by
  intro chunks
  induction chunks with
  | nil => intro d a f; rfl
  | cons c rest ih =>
    intro d a f
    rw [List.map_cons, List.foldl_cons, show traceCheckStep
      ⟨d, a, false, false, f, true⟩ (.data c) =
        ⟨d + 1, a, false, false, f, true⟩ from rfl]
    exact ih (d + 1) a f

/-- A concrete path environment for the concrete evaluation theorems. -/
def env0 : PathEnv := ⟨"/tmp", 1234, 126, 9, 12, ⟨98765, by norm_num⟩⟩

/-- A concrete already-settled disk state. -/
def dState0 : DiskState :=
  ⟨⟨"/tmp/x", none, none, 0⟩, [], 0, false, false,
    .rejected (.sourceError 1)⟩

/-- C4: on normal completion (chunks, then `end`, then the flush/close
callback) `streamToDisk` resolves only after the destination is flushed and
closed, with a `StoredPartInfo` whose `size` is the total emitted byte
count, whose `path` is the allocated temporary path — the destination then
holding exactly the emitted chunks in order (`written`) — and whose
`name`/`type` are the part's declared filename and content type passed
through unmodified; in general, any resolution whatsoever happens with the
file already closed. -/
theorem streamToDisk_completion (part : Part) (p : Option String)
    (env : PathEnv) (chunks : List Chunk) :
    (streamToDisk part p env
        (chunks.map .data ++ [.ended, .flushed])).outcome
      = .resolved ⟨makeTemporaryPath env p, part.filename, part.type,
          sumLen chunks⟩ ∧
    (streamToDisk part p env
        (chunks.map .data ++ [.ended, .flushed])).written = chunks ∧
    (streamToDisk part p env
        (chunks.map .data ++ [.ended, .flushed])).closed = true ∧
    ∀ (events : List PartEvent) (i : StoredPartInfo),
      (streamToDisk part p env events).outcome = .resolved i →
      (streamToDisk part p env events).closed = true := by
  have hstate : streamToDisk part p env
      (chunks.map .data ++ [.ended, .flushed])
      = ⟨⟨makeTemporaryPath env p, part.filename, part.type, sumLen chunks⟩,
          chunks, 0, true, true,
          .resolved ⟨makeTemporaryPath env p, part.filename, part.type,
            sumLen chunks⟩⟩ := by
    unfold streamToDisk
    rw [List.foldl_append]
    rw [disk_fold_data chunks
      ⟨⟨makeTemporaryPath env p, part.filename, part.type, 0⟩, [], 0, false,
        false, .pending⟩]
    simp [diskStep, Outcome.resolve]
  refine ⟨by rw [hstate], by rw [hstate], by rw [hstate], ?_⟩
  intro events i h
  unfold streamToDisk at h ⊢
  refine disk_fold_resolved_closed events _ ?_ i h
  intro j hj
  simp at hj

/-- Witness for C4: two chunks of two and one bytes; and a concrete
resolution (an empty part) with the file closed. -/
theorem streamToDisk_completion_witness :
    (streamToDisk ⟨some "a.txt", some "text/plain"⟩ (some "u-") env0
        ([[1, 2], [3]].map PartEvent.data
          ++ [PartEvent.ended, PartEvent.flushed])).outcome
      = Outcome.resolved ⟨makeTemporaryPath env0 (some "u-"), some "a.txt",
          some "text/plain", sumLen [[1, 2], [3]]⟩ ∧
    (streamToDisk ⟨some "a.txt", some "text/plain"⟩ (some "u-") env0
        [PartEvent.ended, PartEvent.flushed]).closed = true :=
  ⟨(streamToDisk_completion ⟨some "a.txt", some "text/plain"⟩ (some "u-")
      env0 [[1, 2], [3]]).1,
    (streamToDisk_completion ⟨some "a.txt", some "text/plain"⟩ (some "u-")
        env0 []).2.2.2 [PartEvent.ended, PartEvent.flushed]
      ⟨makeTemporaryPath env0 (some "u-"), some "a.txt", some "text/plain",
        0⟩ rfl⟩

/-- C3 is false of the code: the `data` handler calls `stream.write` and
returns without waiting for the acknowledgment — nothing pauses the part —
so after a valid trace of two back-to-back chunks with no acknowledgment in
between, two unacknowledged writes are in flight, not at most one. -/
theorem streamToDisk_two_writes_in_flight :
    validTrace [PartEvent.data [1], PartEvent.data [2]] = true ∧
    1 < (streamToDisk ⟨none, none⟩ none env0
          [PartEvent.data [1], PartEvent.data [2]]).written.length
        - (streamToDisk ⟨none, none⟩ none env0
          [PartEvent.data [1], PartEvent.data [2]]).acked := by
  exact ⟨rfl, by decide⟩

/-- C3 amended: writes are issued in emission order, but acceptance of the
next chunk is not gated on any acknowledgment: after any burst of data
events (a valid trace), every chunk has been handed to the write stream and
none acknowledged — the whole burst is in flight at once. -/
theorem streamToDisk_writes_not_serialized (part : Part) (p : Option String)
    (env : PathEnv) (chunks : List Chunk) :
    validTrace (chunks.map .data) = true ∧
    (streamToDisk part p env (chunks.map .data)).written = chunks ∧
    (streamToDisk part p env (chunks.map .data)).acked = 0 := by
  refine ⟨traceCheck_fold_data chunks 0 0 false, ?_, ?_⟩
  · unfold streamToDisk
    rw [disk_fold_data]
    simp
  · unfold streamToDisk
    rw [disk_fold_data]

/-- C6 is false of the code: a write acknowledged as failed does not fail
the operation — the valid trace below contains a failed write, yet the
invocation still resolves successfully with the full `StoredPartInfo`. -/
theorem streamToDisk_write_failure_not_fatal :
    validTrace [PartEvent.data [1], PartEvent.ackWrite false, PartEvent.ended,
        PartEvent.flushed] = true ∧
    (streamToDisk ⟨none, none⟩ none env0
        [PartEvent.data [1], PartEvent.ackWrite false, PartEvent.ended,
          PartEvent.flushed]).outcome
      = Outcome.resolved ⟨makeTemporaryPath env0 none, none, none, 1⟩ :=
  ⟨rfl, rfl⟩

/-- C6 amended: `streamToDisk` does not detect destination write failures:
the write callback ignores its argument and no error handler is attached to
the write stream, so however many writes the storage layer acknowledges as
failed, the operation still resolves with the full `StoredPartInfo`; an
acknowledgment (failed or successful) changes nothing but the
acknowledgment count, and no invocation ever rejects with
`DestinationWriteError`. -/
theorem streamToDisk_write_errors_undetected (part : Part) (p : Option String)
    (env : PathEnv) (chunks : List Chunk) (oks : List Bool) :
    (streamToDisk part p env (chunks.map .data ++ oks.map .ackWrite
        ++ [.ended, .flushed])).outcome
      = .resolved ⟨makeTemporaryPath env p, part.filename, part.type,
          sumLen chunks⟩ ∧
    (∀ (s : DiskState) (ok : Bool),
      (diskStep s (.ackWrite ok)).outcome = s.outcome ∧
      (diskStep s (.ackWrite ok)).written = s.written ∧
      (diskStep s (.ackWrite ok)).info = s.info ∧
      (diskStep s (.ackWrite ok)).closed = s.closed) ∧
    ∀ (events : List PartEvent) (c : Nat),
      (streamToDisk part p env events).outcome
        ≠ .rejected (.destinationWriteError c) := by
  refine ⟨?_, ?_, ?_⟩
  · unfold streamToDisk
    rw [List.foldl_append, List.foldl_append]
    rw [disk_fold_data chunks
      ⟨⟨makeTemporaryPath env p, part.filename, part.type, 0⟩, [], 0, false,
        false, .pending⟩]
    rw [disk_fold_acks]
    simp [diskStep, Outcome.resolve]
  · intro s ok
    exact ⟨rfl, rfl, rfl, rfl⟩
  · intro events c h
    unfold streamToDisk at h
    rcases disk_fold_rejected events _ _ h with h1 | ⟨c2, hc2, _⟩
    · simp at h1
    · simp at hc2

/-- Witness for C6: two chunks, both writes acknowledged as failed, still a
successful resolution; and a concrete source-error rejection that is not a
`DestinationWriteError`. -/
theorem streamToDisk_write_errors_undetected_witness :
    (streamToDisk ⟨none, none⟩ none env0
        ([[1], [2]].map PartEvent.data
          ++ [false, false].map PartEvent.ackWrite
          ++ [PartEvent.ended, PartEvent.flushed])).outcome
      = Outcome.resolved ⟨makeTemporaryPath env0 none, none, none,
          sumLen [[1], [2]]⟩ ∧
    (streamToDisk ⟨none, none⟩ none env0 [PartEvent.error 3]).outcome
      ≠ Outcome.rejected (MachError.destinationWriteError 9) :=
  ⟨(streamToDisk_write_errors_undetected ⟨none, none⟩ none env0 [[1], [2]]
      [false, false]).1,
    (streamToDisk_write_errors_undetected ⟨none, none⟩ none env0 [] []).2.2
      [PartEvent.error 3] 9⟩

/-- C10: `streamToDisk` enforces no byte ceiling: over any event trace,
every emitted chunk is handed to the write stream and counted into the size
regardless of the running total, and a rejection can only be the wrapped
error of a source `error` event — never a size-related condition. -/
theorem streamToDisk_no_size_limit (part : Part) (p : Option String)
    (env : PathEnv) (events : List PartEvent) :
    (streamToDisk part p env events).written = dataChunks events ∧
    (streamToDisk part p env events).info.size
        = sumLen (dataChunks events) ∧
    ∀ e, (streamToDisk part p env events).outcome = .rejected e →
      ∃ c, e = .sourceError c ∧ PartEvent.error c ∈ events := by
  have h := disk_fold_written events
    ⟨⟨makeTemporaryPath env p, part.filename, part.type, 0⟩, [], 0, false,
      false, .pending⟩
  refine ⟨?_, ?_, ?_⟩
  · unfold streamToDisk
    rw [h.1]
    simp
  · unfold streamToDisk
    rw [h.2.1]
    simp
  · intro e he
    unfold streamToDisk at he
    rcases disk_fold_rejected events _ e he with h1 | h2
    · simp at h1
    · exact h2

/-- Witness for C10: a chunk then a source error; the rejection is that
source error. -/
theorem streamToDisk_no_size_limit_witness :
    (streamToDisk ⟨none, none⟩ none env0
        [PartEvent.data [5], PartEvent.error 3]).written = [[5]] ∧
    ∃ c, MachError.sourceError 3 = MachError.sourceError c ∧
      PartEvent.error c ∈ [PartEvent.data [5], PartEvent.error 3] :=
  ⟨(streamToDisk_no_size_limit ⟨none, none⟩ none env0
      [PartEvent.data [5], PartEvent.error 3]).1,
    (streamToDisk_no_size_limit ⟨none, none⟩ none env0
      [PartEvent.data [5], PartEvent.error 3]).2.2
      (MachError.sourceError 3) rfl⟩

/-- C2: each of the three operations settles exactly once: whichever of
source error, limit breach or completion settles the deferred first fixes
the outcome, and no later event changes a settled outcome — for
`bufferStream`, `makeChecksum` and `streamToDisk` alike; in particular a
data chunk breaching the limit followed immediately by the source's error
event (and anything after) yields `MaxLengthExceeded`, not the source
error. -/
theorem operations_settle_once :
    (∀ (m : Option Nat) (events : List StreamEvent) (s : BufferState),
      s.outcome ≠ .pending →
      (events.foldl (bufferStreamStep m) s).outcome = s.outcome) ∧
    (∀ (events : List StreamEvent) (s : ChecksumState),
      s.outcome ≠ .pending →
      (events.foldl checksumStep s).outcome = s.outcome) ∧
    (∀ (events : List PartEvent) (s : DiskState), s.outcome ≠ .pending →
      (events.foldl diskStep s).outcome = s.outcome) ∧
    ∀ (m : Nat) (chunks : List Chunk) (c : Chunk) (code : Nat)
      (rest : List StreamEvent), 0 < m → sumLen chunks ≤ m →
      m < sumLen chunks + c.length →
      (bufferStream (some m)
          ((chunks ++ [c]).map .data ++ .error code :: rest)).outcome
        = .rejected (.maxLengthExceeded m) := by
  refine ⟨bufferStream_outcome_stable, checksum_outcome_stable,
    disk_outcome_stable, ?_⟩
  intro m chunks c code rest hm h1 h2
  unfold bufferStream
  rw [show (chunks ++ [c]).map StreamEvent.data
        ++ StreamEvent.error code :: rest
      = chunks.map StreamEvent.data ++ (StreamEvent.data c
        :: (StreamEvent.error code :: rest)) by simp]
  rw [List.foldl_append]
  rw [bufferStream_fold_data_ok (some m) chunks ⟨[], 0, .pending⟩
    (Or.inr (by simpa using h1))]
  simp only [List.nil_append, Nat.zero_add, List.foldl_cons]
  have hstep : bufferStreamStep (some m) ⟨chunks, sumLen chunks, .pending⟩
      (.data c)
      = ⟨chunks, sumLen chunks + c.length,
          .rejected (.maxLengthExceeded m)⟩ := by
    have ht : truthyMax (some m) = true := by
      simp [truthyMax]; omega
    have hlt : (some m).getD 0 < sumLen chunks + c.length := by
      simp; omega
    simp [bufferStreamStep, ht, hlt]
    omega
  rw [hstep]
  have hne : (bufferStreamStep (some m)
      ⟨chunks, sumLen chunks + c.length,
        .rejected (.maxLengthExceeded m)⟩ (.error code)).outcome
      ≠ .pending := by
    simp [bufferStreamStep, Outcome.reject]
  rw [bufferStream_outcome_stable (some m) rest _ hne]
  simp [bufferStreamStep, Outcome.reject]

/-- Witness for C2: a settled deferred survives an `end` event in all three
operations, and the spec's 10+10-byte example against maximum 15 followed
immediately by a source error still yields `MaxLengthExceeded(15)`. -/
theorem operations_settle_once_witness :
    ([StreamEvent.ended].foldl (bufferStreamStep none)
        ⟨[], 0, Outcome.rejected (MachError.sourceError 1)⟩).outcome
      = Outcome.rejected (MachError.sourceError 1) ∧
    ([StreamEvent.ended].foldl checksumStep
        ⟨[], Outcome.rejected (MachError.sourceError 1)⟩).outcome
      = Outcome.rejected (MachError.sourceError 1) ∧
    ([PartEvent.flushed].foldl diskStep dState0).outcome = dState0.outcome ∧
    (bufferStream (some 15)
        (([List.replicate 10 97] ++ [List.replicate 10 98]).map
            StreamEvent.data ++ StreamEvent.error 5 :: [])).outcome
      = Outcome.rejected (MachError.maxLengthExceeded 15) :=
  ⟨operations_settle_once.1 none [StreamEvent.ended] _ (by decide),
    operations_settle_once.2.1 [StreamEvent.ended] _ (by decide),
    operations_settle_once.2.2.1 [PartEvent.flushed] dState0 (by decide),
    operations_settle_once.2.2.2 15 [List.replicate 10 97]
      (List.replicate 10 98) 5 [] (by decide) (by decide) (by decide)⟩

/-- Witness for C8: the structural equation at a concrete environment, and
the injectivity component applied at a concrete draw. -/
theorem makeTemporaryPath_structure_witness :
    makeTemporaryPath env0 (some "u-")
        = env0.tmpDir ++ "/" ++ (jsOrString (some "u-") ""
            ++ dateComponent env0 ++ "-" ++ toString env0.pid ++ "-"
            ++ randomComponent env0) ∧
    (⟨5, by norm_num⟩ : Fin (2 ^ 32)) = ⟨5, by norm_num⟩ :=
  ⟨(makeTemporaryPath_structure env0 (some "u-")).1,
    (makeTemporaryPath_structure env0 (some "u-")).2.1 rfl⟩

end Mach
